import Mathlib

/-!
Verification of the chunk-and-aggregate pipeline in `src/main.py` (GPTFin).

The file shallowly embeds the pure core of the program: the chunker
`chunk_text`, the per-chunk response-aggregation loop of
`extract_financial_data`, the final "; "-join consolidation, and the
input-routing logic of `main`.  External collaborators (the PDF/HTML text
sources and the LLM call) are modelled as opaque inputs: the LLM response
for a chunk is represented by the outcome of `json.loads` on it, since
every property of the aggregator depends on the response only through
that outcome.  Python's unbounded `int` lengths are `Nat`, Python strings
are Lean `String`s (sequences of unicode code points, matching `len` and
slicing-free use in the source), and Python exceptions are `Except`.
-/

namespace GPTFin

/-- Embedding of Python `text.split("\n")`: `splitLinesAux cs acc` scans the
character list `cs`, holding the characters of the current (not yet closed)
line in reverse order in `acc`. -/
def splitLinesAux : List Char → List Char → List String
  | [], acc => [String.mk acc.reverse]
  | c :: cs, acc =>
    if c = '\n' then String.mk acc.reverse :: splitLinesAux cs []
    else splitLinesAux cs (c :: acc)

/-- Embedding of Python `text.split("\n")`; note `"".split("\n") == [""]`. -/
def splitLines (s : String) : List String :=
  splitLinesAux s.data []

/-- Embedding of Python `"\n".join(lines)`. -/
def joinLines : List String → String
  | [] => ""
  | [l] => l
  | l :: l2 :: ls => l ++ "\n" ++ joinLines (l2 :: ls)

/-- The `for line in lines` loop of `chunk_text` (src/main.py lines 67-80),
including the trailing `if current_chunk: chunks.append(...)`.  The state is
the remaining lines, the current chunk (`current_chunk`) and its accumulated
character count (`current_length`); emitted chunks are returned in order. -/
def chunkLoop (maxChars : Nat) : List String → List String → Nat → List String
  | [], currentChunk, _ =>
    if currentChunk.isEmpty then [] else [joinLines currentChunk]
  | line :: rest, currentChunk, currentLength =>
    if currentLength + line.length > maxChars then
      joinLines currentChunk :: chunkLoop maxChars rest [line] line.length
    else
      chunkLoop maxChars rest (currentChunk ++ [line]) (currentLength + line.length)

/-- Embedding of `chunk_text` (src/main.py lines 60-82).  `max_chars` is a
Python `int` used only as a character budget; it is modelled as `Nat` (the
program always passes the default `3000`). -/
def chunk_text (text : String) (maxChars : Nat) : List String :=
  chunkLoop maxChars (splitLines text) [] 0

/-- The default `max_chars = 3000` of `chunk_text`. -/
def DEFAULT_MAX_CHARS : Nat := 3000

/-- The lines of a chunk sequence, concatenated in order (the quantity the
chunk-coverage property speaks about). -/
def linesOfChunks : List String → List String
  | [] => []
  | c :: rest => splitLines c ++ linesOfChunks rest

/-- Sum of the character lengths of a list of lines (what `current_length`
tracks: it does not count the `"\n"` separators that `"\n".join` inserts). -/
def sumLens : List String → Nat
  | [] => 0
  | l :: ls => l.length + sumLens ls

/-- A JSON value as produced by `json.loads`.  Numbers are modelled as
integers (the source never inspects numeric values beyond truthiness and
`str`).  Objects are finite maps represented as association lists in
insertion order; lookup is first-match. -/
inductive Json where
  | null
  | bool (b : Bool)
  | num (n : Int)
  | str (s : String)
  | arr (xs : List Json)
  | obj (kvs : List (String × Json))

/-- Python truthiness (`if data[key]:`) of a `json.loads` result. -/
def Json.truthy : Json → Bool
  | Json.null => false
  | Json.bool b => b
  | Json.num n => n != 0
  | Json.str s => !s.isEmpty
  | Json.arr xs => !xs.isEmpty
  | Json.obj kvs => !kvs.isEmpty

/-- JSON string escaping as done by `json.dumps` (quote and backslash; the
source never produces the remaining escape classes in the claims checked
here). -/
def jsonEscape (s : String) : String :=
  String.mk (s.data.foldr
    (fun c acc =>
      if c = '\\' then '\\' :: '\\' :: acc
      else if c = '"' then '\\' :: '"' :: acc
      else c :: acc) [])

/-- Embedding of Python `", ".join(parts)`. -/
def joinCommaSep : List String → String
  | [] => ""
  | [p] => p
  | p :: p2 :: ps => p ++ ", " ++ joinCommaSep (p2 :: ps)

mutual

/-- Embedding of `json.dumps` with its default separators `", "` and `": "`
(src/main.py line 126 serialises dict-valued fields this way). -/
def jsonDumps : Json → String
  | Json.null => "null"
  | Json.bool true => "true"
  | Json.bool false => "false"
  | Json.num n => toString n
  | Json.str s => "\"" ++ jsonEscape s ++ "\""
  | Json.arr xs => "[" ++ joinCommaSep (jsonDumpsList xs) ++ "]"
  | Json.obj kvs => "\x7b" ++ joinCommaSep (jsonDumpsObj kvs) ++ "\x7d"

/-- `json.dumps` of the elements of a JSON array. -/
def jsonDumpsList : List Json → List String
  | [] => []
  | v :: vs => jsonDumps v :: jsonDumpsList vs

/-- `json.dumps` of the entries of a JSON object. -/
def jsonDumpsObj : List (String × Json) → List String
  | [] => []
  | (k, v) :: kvs => ("\"" ++ jsonEscape k ++ "\": " ++ jsonDumps v) :: jsonDumpsObj kvs

end

mutual

/-- Python `repr` of a `json.loads` result (used by `str` inside
containers). -/
def pyRepr : Json → String
  | Json.null => "None"
  | Json.bool true => "True"
  | Json.bool false => "False"
  | Json.num n => toString n
  | Json.str s => "'" ++ s ++ "'"
  | Json.arr xs => "[" ++ joinCommaSep (pyReprList xs) ++ "]"
  | Json.obj kvs => "\x7b" ++ joinCommaSep (pyReprObj kvs) ++ "\x7d"

/-- `repr` of the elements of a list value. -/
def pyReprList : List Json → List String
  | [] => []
  | v :: vs => pyRepr v :: pyReprList vs

/-- `repr` of the entries of a dict value. -/
def pyReprObj : List (String × Json) → List String
  | [] => []
  | (k, v) :: kvs => ("'" ++ k ++ "': " ++ pyRepr v) :: pyReprObj kvs

end

/-- Python `str(value)` of a `json.loads` result (src/main.py line 128):
identical to `repr` except on strings. -/
def pyStr : Json → String
  | Json.str s => s
  | v => pyRepr v

/-- The value coercion of src/main.py lines 124-128: a dict is re-serialised
with `json.dumps`, a non-string scalar or list is passed through `str`, and
a string is kept as is. -/
def coerceValue (v : Json) : String :=
  match v with
  | Json.obj kvs => jsonDumps (Json.obj kvs)
  | Json.str s => s
  | _ => pyStr v

/-- Python exceptions that the aggregation loop can raise (beyond
`json.JSONDecodeError`, which is caught). -/
inductive PyError where
  | typeError
  | keyError
deriving DecidableEq

/-- The LLM response for a chunk, represented by the outcome of
`json.loads` on the (stripped) reply text: either a `JSONDecodeError`, or
the parsed JSON value. -/
inductive Response where
  | invalid
  | parsed (v : Json)

/-- The keys of `aggregated_data` in insertion order
(src/main.py lines 88-94). -/
def fieldNames : List String :=
  ["Revenue", "Earnings", "OperatingMargin", "RevenueGrowthRates", "Guidance"]

/-- `aggregated_data` as initialised at src/main.py lines 88-94: a map from
field name to the list of accumulated string values, represented as an
association list in insertion order. -/
def emptyAggregated : List (String × List String) :=
  fieldNames.map (fun k => (k, ([] : List String)))

/-- `aggregated_data[key].append(v)`: append `v` to the list stored under
`key`, leaving every other entry unchanged. -/
def appendTo (agg : List (String × List String)) (key : String) (v : String) :
    List (String × List String) :=
  agg.map (fun kv => if kv.1 = key then (kv.1, kv.2 ++ [v]) else kv)

/-- First-match lookup in the accumulator (dict access on
`aggregated_data`). -/
def aggGet : List (String × List String) → String → Option (List String)
  | [], _ => none
  | (k1, vs) :: rest, k => if k1 = k then some vs else aggGet rest k

/-- First-match lookup in a parsed JSON object (dict access on `data`). -/
def dictGet : List (String × Json) → String → Option Json
  | [], _ => none
  | (k1, v) :: rest, k => if k1 = k then some v else dictGet rest k

/-- Substring test on character lists (Python `in` on strings). -/
def startsChars : List Char → List Char → Bool
  | _, [] => true
  | [], _ :: _ => false
  | c :: cs, d :: ds => c == d && startsChars cs ds

/-- Scan for a substring occurrence. -/
def containsAux : List Char → List Char → Bool
  | [], sub0 => sub0.isEmpty
  | c :: cs, sub0 => startsChars (c :: cs) sub0 || containsAux cs sub0

/-- Python `sub in s` for strings. -/
def strContainsSub (s sub : String) : Bool :=
  containsAux s.data sub.data

/-- Python `key in data` on a `json.loads` result (src/main.py line 123):
dict membership for objects, substring test for strings, element equality
for lists, and a `TypeError` for `int`, `bool`, `float` and `None` (the
non-iterable values). -/
def pyContains (data : Json) (key : String) : Except PyError Bool :=
  match data with
  | Json.obj kvs => Except.ok (dictGet kvs key).isSome
  | Json.str s => Except.ok (strContainsSub s key)
  | Json.arr xs =>
    Except.ok (xs.any (fun v => match v with | Json.str t => t == key | _ => false))
  | _ => Except.error PyError.typeError

/-- Python `data[key]` on a `json.loads` result (src/main.py line 124):
dict lookup for objects (`KeyError` when absent, unreachable after a
positive membership test), `TypeError` for every other value when indexed
with a string key. -/
def pyIndex (data : Json) (key : String) : Except PyError Json :=
  match data with
  | Json.obj kvs =>
    match dictGet kvs key with
    | some v => Except.ok v
    | none => Except.error PyError.keyError
  | _ => Except.error PyError.typeError

/-- The `for key in aggregated_data.keys()` loop of src/main.py lines
122-129: for each key, `if key in data and data[key]:` (short-circuit, each
part may raise) append the coerced value.  An uncaught exception aborts the
whole loop. -/
def processKeys (data : Json) : List String → List (String × List String) →
    Except PyError (List (String × List String))
  | [], agg => Except.ok agg
  | key :: rest, agg =>
    match pyContains data key with
    | Except.error e => Except.error e
    | Except.ok b =>
      if b then
        match pyIndex data key with
        | Except.error e => Except.error e
        | Except.ok v =>
          if v.truthy then processKeys data rest (appendTo agg key (coerceValue v))
          else processKeys data rest agg
      else processKeys data rest agg

/-- The entry a parsed object contributes to field `k`'s value list: one
coerced value exactly when the object contains `k` with a truthy value,
nothing otherwise. -/
def extraFor (kvs : List (String × Json)) (k : String) : List String :=
  match dictGet kvs k with
  | some v => if v.truthy then [coerceValue v] else []
  | none => []

/-- The key loop of src/main.py lines 122-129 specialised to an object
response, where no exception can arise, written as a pure fold (used to
characterise `processKeys` on objects). -/
def objFold (kvs : List (String × Json)) :
    List String → List (String × List String) → List (String × List String)
  | [], agg => agg
  | key :: rest, agg =>
    objFold kvs rest
      (match dictGet kvs key with
       | some v => if v.truthy then appendTo agg key (coerceValue v) else agg
       | none => agg)

/-- Processing of one chunk's response (src/main.py lines 117-134): on a
`JSONDecodeError` the diagnostic string is appended to `"Revenue"` and the
loop continues; on a successful parse the key loop runs (and only
`json.JSONDecodeError` is caught, so any other exception propagates). -/
def processChunk (agg : List (String × List String)) (chunkIndex : Nat)
    (resp : Response) : Except PyError (List (String × List String)) :=
  match resp with
  | Response.invalid =>
    Except.ok (appendTo agg "Revenue" ("Failed to parse JSON in chunk " ++ toString chunkIndex))
  | Response.parsed data => processKeys data fieldNames agg

/-- The `for chunk_index, chunk_content in enumerate(text_chunks)` loop of
src/main.py lines 96-134, parameterised by the extractor (the LLM call,
an external collaborator).  Returns the final accumulator (or the uncaught
exception) together with the ordered list of chunk texts actually sent to
the extractor. -/
def runChunks (extractor : String → Response) :
    List String → Nat → List (String × List String) →
    Except PyError (List (String × List String)) × List String
  | [], _, agg => (Except.ok agg, [])
  | chunk :: rest, i, agg =>
    match processChunk agg i (extractor chunk) with
    | Except.ok agg2 =>
      ((runChunks extractor rest (i + 1) agg2).1,
        chunk :: (runChunks extractor rest (i + 1) agg2).2)
    | Except.error e => (Except.error e, [chunk])

/-- Embedding of Python `"; ".join(val_list)` (src/main.py line 138). -/
def joinSemicolon : List String → String
  | [] => ""
  | [v] => v
  | v :: v2 :: vs => v ++ "; " ++ joinSemicolon (v2 :: vs)

/-- The final consolidation of src/main.py lines 137-140:
`"; ".join(val_list) if val_list else ""`, field by field. -/
def finalResult (agg : List (String × List String)) : List (String × String) :=
  agg.map (fun kv => (kv.1, if kv.2.isEmpty then "" else joinSemicolon kv.2))

/-- Embedding of `extract_financial_data` (src/main.py lines 84-142),
parameterised by the extractor.  The first component is the returned final
record (or the uncaught exception that terminated the pipeline); the second
is the ordered list of chunk texts sent to the extractor. -/
def extract_financial_data (extractor : String → Response) (text : String) :
    Except PyError (List (String × String)) × List String :=
  ((match (runChunks extractor (chunk_text text DEFAULT_MAX_CHARS) 0 emptyAggregated).1 with
    | Except.ok agg => Except.ok (finalResult agg)
    | Except.error e => Except.error e),
   (runChunks extractor (chunk_text text DEFAULT_MAX_CHARS) 0 emptyAggregated).2)

/-- ASCII lowercasing of one character (the fragment of Python `str.lower`
that the checked suffixes exercise). -/
def charLower (c : Char) : Char :=
  if 65 ≤ c.toNat ∧ c.toNat ≤ 90 then Char.ofNat (c.toNat + 32) else c

/-- Embedding of Python `input_path.lower()`. -/
def strToLower (s : String) : String :=
  String.mk (s.data.map charLower)

/-- Python `s.startswith(t)`. -/
def strStartsWith (s t : String) : Bool :=
  startsChars s.data t.data

/-- Python `s.endswith(t)`. -/
def strEndsWith (s t : String) : Bool :=
  startsChars s.data.reverse t.data.reverse

/-- The route `main` (src/main.py lines 144-160) takes for a given argument
vector. -/
inductive MainRoute where
  | usageErrorMissing
  | pdfRoute (path : String)
  | htmlRoute (path : String)
  | usageErrorUnknown
deriving DecidableEq

/-- The argument classification of `main` (src/main.py lines 144-160):
`sys.argv` with fewer than two entries exits before any processing;
otherwise `sys.argv[1]` is routed on its lowercased `.pdf` / `.html`
suffix or its (case-sensitive) `http` scheme test. -/
def classify_input (argv : List String) : MainRoute :=
  match argv with
  | [] => MainRoute.usageErrorMissing
  | [_] => MainRoute.usageErrorMissing
  | _ :: inputPath :: _ =>
    if strEndsWith (strToLower inputPath) ".pdf" then MainRoute.pdfRoute inputPath
    else if strEndsWith (strToLower inputPath) ".html" || strStartsWith inputPath "http" then
      MainRoute.htmlRoute inputPath
    else MainRoute.usageErrorUnknown

/-- The exit code `main` settles on before any document processing:
`sys.exit(1)` on both usage errors, and no early exit on the two
processing routes. -/
def routeExitCode : MainRoute → Option Nat
  | MainRoute.usageErrorMissing => some 1
  | MainRoute.usageErrorUnknown => some 1
  | MainRoute.pdfRoute _ => none
  | MainRoute.htmlRoute _ => none

theorem strData_append (a b : String) : (a ++ b).data = a.data ++ b.data := rfl

theorem strMk_data (s : String) : String.mk s.data = s := rfl

theorem splitLinesAux_consume (chars : List Char) :
    ∀ (ds acc : List Char), (∀ c ∈ chars, c ≠ '\n') →
      splitLinesAux (chars ++ ds) acc = splitLinesAux ds (chars.reverse ++ acc) := by
  induction chars with
  | nil => intro ds acc _; simp
  | cons c cs ih =>
    intro ds acc h
    have hc : c ≠ '\n' := h c (List.mem_cons_self c cs)
    have hcs : ∀ x ∈ cs, x ≠ '\n' := fun x hx => h x (List.mem_cons_of_mem c hx)
    rw [List.cons_append, splitLinesAux, if_neg hc, ih ds (c :: acc) hcs]
    congr 1
    simp

theorem splitLinesAux_noNewline (cs : List Char) :
    ∀ acc : List Char, (∀ c ∈ acc, c ≠ '\n') →
      ∀ l ∈ splitLinesAux cs acc, '\n' ∉ l.data := by
  induction cs with
  | nil =>
    intro acc h l hl
    simp only [splitLinesAux, List.mem_singleton] at hl
    subst hl
    intro hmem
    exact h '\n' (List.mem_reverse.mp hmem) rfl
  | cons c cs ih =>
    intro acc h l hl
    by_cases hc : c = '\n'
    · simp only [splitLinesAux, if_pos hc, List.mem_cons] at hl
      rcases hl with hl | hl
      · subst hl
        intro hmem
        exact h '\n' (List.mem_reverse.mp hmem) rfl
      · exact ih [] (by simp) l hl
    · simp only [splitLinesAux, if_neg hc] at hl
      refine ih (c :: acc) ?_ l hl
      intro x hx
      rcases List.mem_cons.mp hx with hx | hx
      · subst hx; exact hc
      · exact h x hx

theorem splitLines_noNewline (s : String) : ∀ l ∈ splitLines s, '\n' ∉ l.data :=
  splitLinesAux_noNewline s.data [] (by simp)

theorem splitLines_joinLines (ls : List String) (hne : ls ≠ [])
    (h : ∀ l ∈ ls, '\n' ∉ l.data) : splitLines (joinLines ls) = ls := by
  induction ls with
  | nil => exact absurd rfl hne
  | cons l t ih =>
    cases t with
    | nil =>
      show splitLines l = [l]
      have hl : ∀ c ∈ l.data, c ≠ '\n' := by
        intro c hc he
        exact h l (List.mem_singleton_self l) (he ▸ hc)
      have := splitLinesAux_consume l.data [] [] hl
      simp only [List.append_nil] at this
      unfold splitLines
      rw [this]
      simp [splitLinesAux]
    | cons l2 t2 =>
      have hstep : joinLines (l :: l2 :: t2) = l ++ "\n" ++ joinLines (l2 :: t2) := rfl
      have hl : ∀ c ∈ l.data, c ≠ '\n' := by
        intro c hc he
        exact h l (List.mem_cons_self l _) (he ▸ hc)
      have hrest : ∀ x ∈ l2 :: t2, '\n' ∉ x.data :=
        fun x hx => h x (List.mem_cons_of_mem l hx)
      have hdata : (joinLines (l :: l2 :: t2)).data
          = l.data ++ '\n' :: (joinLines (l2 :: t2)).data := by
        rw [hstep, strData_append, strData_append]
        simp
      unfold splitLines
      rw [hdata, splitLinesAux_consume l.data _ [] hl]
      simp only [List.append_nil]
      show String.mk l.data.reverse.reverse :: splitLinesAux (joinLines (l2 :: t2)).data [] =
        l :: l2 :: t2
      rw [List.reverse_reverse, strMk_data]
      exact congrArg (l :: ·) (ih (by simp) hrest)

theorem chunkLoop_linesOf (maxChars : Nat) (lines : List String) :
    ∀ (cur : List String) (len : Nat), cur ≠ [] →
      (∀ l ∈ cur, '\n' ∉ l.data) → (∀ l ∈ lines, '\n' ∉ l.data) →
      linesOfChunks (chunkLoop maxChars lines cur len) = cur ++ lines := by
  induction lines with
  | nil =>
    intro cur len hne hcur _
    cases cur with
    | nil => exact absurd rfl hne
    | cons x xs =>
      show linesOfChunks [joinLines (x :: xs)] = (x :: xs) ++ []
      show splitLines (joinLines (x :: xs)) ++ [] = (x :: xs) ++ []
      rw [splitLines_joinLines (x :: xs) (by simp) hcur]
  | cons line rest ih =>
    intro cur len hne hcur hlines
    have hline : '\n' ∉ line.data := hlines line (List.mem_cons_self line rest)
    have hrest : ∀ l ∈ rest, '\n' ∉ l.data :=
      fun l hl => hlines l (List.mem_cons_of_mem line hl)
    by_cases hov : len + line.length > maxChars
    · show linesOfChunks (if len + line.length > maxChars then _ else _) = _
      rw [if_pos hov]
      show splitLines (joinLines cur) ++ linesOfChunks (chunkLoop maxChars rest [line] line.length)
          = cur ++ line :: rest
      rw [splitLines_joinLines cur hne hcur,
        ih [line] line.length (by simp) (by simpa using hline) hrest]
      simp
    · show linesOfChunks (if len + line.length > maxChars then _ else _) = _
      rw [if_neg hov]
      rw [ih (cur ++ [line]) (len + line.length) (by simp)
        (by intro l hl; rcases List.mem_append.mp hl with hl | hl
            · exact hcur l hl
            · rw [List.mem_singleton.mp hl]; exact hline) hrest]
      simp

theorem sumLens_append (a b : List String) :
    sumLens (a ++ b) = sumLens a + sumLens b := by
  induction a with
  | nil => simp [sumLens]
  | cons l t ih => simp [sumLens, ih]; omega

theorem chunkLoop_size (maxChars : Nat) (lines : List String) :
    ∀ (cur : List String) (len : Nat),
      (∀ l ∈ lines, '\n' ∉ l.data) →
      (∀ l ∈ cur, '\n' ∉ l.data) →
      len = sumLens cur →
      (sumLens cur ≤ maxChars ∨ ∃ l, cur = [l] ∧ maxChars < l.length) →
      ∀ c ∈ chunkLoop maxChars lines cur len,
        sumLens (splitLines c) ≤ maxChars ∨ ('\n' ∉ c.data ∧ maxChars < c.length) := by
  induction lines with
  | nil =>
    intro cur len _ hcur _ hinv c hc
    cases cur with
    | nil => simp [chunkLoop] at hc
    | cons x xs =>
      replace hc : c = joinLines (x :: xs) := by
        simpa [chunkLoop] using hc
      subst hc
      rcases hinv with hle | ⟨l, hl, hlong⟩
      · left
        rw [splitLines_joinLines (x :: xs) (by simp) hcur]
        exact hle
      · right
        rw [hl]
        exact ⟨hcur l (hl ▸ List.mem_singleton_self l), hlong⟩
  | cons line rest ih =>
    intro cur len hlines hcur hlen hinv c hc
    have hline : '\n' ∉ line.data := hlines line (List.mem_cons_self line rest)
    have hrest : ∀ l ∈ rest, '\n' ∉ l.data :=
      fun l hl => hlines l (List.mem_cons_of_mem line hl)
    by_cases hov : len + line.length > maxChars
    · rw [show chunkLoop maxChars (line :: rest) cur len =
          joinLines cur :: chunkLoop maxChars rest [line] line.length from by
        simp [chunkLoop, if_pos hov]] at hc
      rcases List.mem_cons.mp hc with hc | hc
      · subst hc
        cases cur with
        | nil => left; simp [joinLines, splitLines, splitLinesAux, sumLens]
        | cons x xs =>
          rcases hinv with hle | ⟨l, hl, hlong⟩
          · left
            rw [splitLines_joinLines (x :: xs) (by simp) hcur]
            exact hle
          · right
            rw [hl]
            exact ⟨hcur l (hl ▸ List.mem_singleton_self l), hlong⟩
      · refine ih [line] line.length hrest ?_ (by simp [sumLens]) ?_ c hc
        · intro l hl
          rw [List.mem_singleton.mp hl]
          exact hline
        · rcases le_or_lt line.length maxChars with hle | hlt
          · exact Or.inl (by simpa [sumLens] using hle)
          · exact Or.inr ⟨line, rfl, hlt⟩
    · rw [show chunkLoop maxChars (line :: rest) cur len =
          chunkLoop maxChars rest (cur ++ [line]) (len + line.length) from by
        simp [chunkLoop, if_neg hov]] at hc
      refine ih (cur ++ [line]) (len + line.length) hrest ?_ ?_ ?_ c hc
      · intro l hl
        rcases List.mem_append.mp hl with hl | hl
        · exact hcur l hl
        · rw [List.mem_singleton.mp hl]
          exact hline
      · rw [sumLens_append]
        simp [sumLens]
        omega
      · left
        rw [sumLens_append]
        simp only [sumLens] at *
        omega

/-- C1 (counterexample): for the one-line text `"aaaa"` and `max_chars = 3`
the chunker emits a leading empty chunk, so concatenating the lines of all
chunks yields `["", "aaaa"]` and not the original line sequence `["aaaa"]` —
an extra empty line is inserted. -/
theorem chunk_coverage_cex :
    linesOfChunks (chunk_text "aaaa" 3) ≠ splitLines "aaaa" := by decide

/-- C1 (amended): concatenating the lines of all chunks of
`chunk_text text max_chars`, in order, reproduces the original line
sequence of `text` exactly whenever the first line of `text` is at most
`max_chars` long; when the first line alone exceeds `max_chars`, the result
is the original line sequence with exactly one extra empty line prepended
(coming from one leading empty chunk), and nothing else is dropped,
duplicated or reordered. -/
theorem chunk_coverage_amended (text : String) (maxChars : Nat) (l0 : String)
    (rest : List String) (h : splitLines text = l0 :: rest) :
    linesOfChunks (chunk_text text maxChars) =
      if maxChars < l0.length then "" :: l0 :: rest else l0 :: rest := by
  have hnl : ∀ l ∈ splitLines text, '\n' ∉ l.data := splitLines_noNewline text
  rw [h] at hnl
  have hl0 : '\n' ∉ l0.data := hnl l0 (List.mem_cons_self _ _)
  have hrest : ∀ l ∈ rest, '\n' ∉ l.data := fun l hl => hnl l (List.mem_cons_of_mem _ hl)
  unfold chunk_text
  rw [h]
  by_cases hov : maxChars < l0.length
  · rw [if_pos hov, chunkLoop, if_pos (by omega : 0 + l0.length > maxChars)]
    show splitLines (joinLines []) ++ linesOfChunks (chunkLoop maxChars rest [l0] l0.length) = _
    rw [chunkLoop_linesOf maxChars rest [l0] l0.length (by simp) (by simpa using hl0) hrest]
    simp [joinLines, splitLines, splitLinesAux]
  · rw [if_neg hov, chunkLoop, if_neg (by omega : ¬(0 + l0.length > maxChars))]
    rw [chunkLoop_linesOf maxChars rest ([] ++ [l0]) (0 + l0.length) (by simp)
      (by simpa using hl0) hrest]
    simp

/-- C1 (amended) at a concrete input: `"ab\ncd"` with `max_chars = 10`
chunks into pieces whose concatenated lines are exactly `["ab", "cd"]`. -/
theorem chunk_coverage_amended_witness :
    linesOfChunks (chunk_text "ab\ncd" 10) =
      if 10 < ("ab" : String).length then "" :: "ab" :: ["cd"] else "ab" :: ["cd"] :=
  chunk_coverage_amended "ab\ncd" 10 "ab" ["cd"] (by decide)

/-- C2 (counterexample): with `max_chars = 3`, `chunk_text "a\nb\nc\nd"`
produces the chunk `"a\nb\nc"` of character length `5 > 3`, although every
one of its three lines has length `1 ≤ 3` — the chunk is not forced by a
single over-long line.  The bound fails because `current_length` does not
count the `"\n"` separators that `"\n".join` inserts. -/
theorem chunk_size_bound_cex :
    chunk_text "a\nb\nc\nd" 3 = ["a\nb\nc", "d"] ∧
    3 < ("a\nb\nc" : String).length ∧
    (splitLines "a\nb\nc").length = 3 ∧
    (∀ l ∈ splitLines "a\nb\nc", l.length ≤ 3) := by decide

/-- C2 (amended): for every chunk returned by `chunk_text`, the sum of the
character lengths of its lines — the quantity `current_length` tracks,
which excludes the joining `"\n"` separators — is at most `max_chars`,
except for a chunk consisting of a single line that is itself longer than
`max_chars`.  The full character length of a multi-line chunk can exceed
`max_chars` by up to the number of its newline separators. -/
theorem chunk_size_bound_amended (text : String) (maxChars : Nat) (c : String)
    (hc : c ∈ chunk_text text maxChars) :
    sumLens (splitLines c) ≤ maxChars ∨ ('\n' ∉ c.data ∧ maxChars < c.length) :=
  chunkLoop_size maxChars (splitLines text) [] 0 (splitLines_noNewline text)
    (by simp) (by simp [sumLens]) (Or.inl (by simp [sumLens])) c hc

/-- C2 (amended) at a concrete input: the single chunk of
`chunk_text "ab" 5` satisfies the amended bound. -/
theorem chunk_size_bound_amended_witness :
    sumLens (splitLines "ab") ≤ 5 ∨ ('\n' ∉ ("ab" : String).data ∧ 5 < ("ab" : String).length) :=
  chunk_size_bound_amended "ab" 5 "ab" (by decide)

/-- C3 (counterexample): the split check of `chunk_text` has no
"current chunk is non-empty" conjunct: on the one-line text `"aaaa"` with
`max_chars = 3` the first loop iteration closes the still-empty current
chunk, so an empty chunk IS emitted before the oversized single-line
chunk, refuting the claimed step rule and its consequence. -/
theorem chunk_split_step_cex :
    chunk_text "aaaa" 3 = ["", "aaaa"] ∧ "" ∈ chunk_text "aaaa" 3 := by decide

/-- C3 (amended): for every line processed in order, `chunk_text` closes
the current chunk exactly when `current_length + len(line) > max_chars`,
with no test that the current chunk is non-empty; a single line longer
than `max_chars` still forms its own oversized chunk, but when the very
first line already exceeds `max_chars` an empty chunk is emitted before
it (a text that is one over-long line yields `["", line]`). -/
theorem chunk_split_step_amended :
    (∀ (maxChars len : Nat) (line : String) (rest cur : List String),
        chunkLoop maxChars (line :: rest) cur len =
          if len + line.length > maxChars then
            joinLines cur :: chunkLoop maxChars rest [line] line.length
          else chunkLoop maxChars rest (cur ++ [line]) (len + line.length)) ∧
    (∀ (text l : String) (maxChars : Nat),
        splitLines text = [l] → maxChars < l.length →
        chunk_text text maxChars = ["", l]) := by
  constructor
  · intro maxChars len line rest cur
    rw [chunkLoop]
  · intro text l maxChars h hlong
    unfold chunk_text
    rw [h, chunkLoop, if_pos (by omega : 0 + l.length > maxChars)]
    simp [chunkLoop, joinLines]

/-- C3 (amended) at a concrete input: the one-line text `"bbbbb"` with
`max_chars = 2` yields an empty chunk followed by the oversized line. -/
theorem chunk_split_step_amended_witness :
    chunk_text "bbbbb" 2 = ["", "bbbbb"] :=
  chunk_split_step_amended.2 "bbbbb" "bbbbb" 2 (by decide) (by decide)

theorem chunk_text_empty (m : Nat) : chunk_text "" m = [""] := by
  unfold chunk_text
  rw [show splitLines "" = [""] from rfl, chunkLoop,
    if_neg (by simp : ¬(0 + ("" : String).length > m))]
  rfl

theorem appendTo_cons (k1 : String) (vs : List String) (t : List (String × List String))
    (key v : String) :
    appendTo ((k1, vs) :: t) key v =
      (if k1 = key then (k1, vs ++ [v]) else (k1, vs)) :: appendTo t key v := rfl

theorem aggGet_cons (k1 : String) (vs : List String) (t : List (String × List String))
    (k : String) :
    aggGet ((k1, vs) :: t) k = if k1 = k then some vs else aggGet t k := rfl

theorem aggGet_appendTo_ne (agg : List (String × List String)) (key v k : String)
    (h : k ≠ key) : aggGet (appendTo agg key v) k = aggGet agg k := by
  induction agg with
  | nil => rfl
  | cons kv t ih =>
    obtain ⟨k1, vs⟩ := kv
    rw [appendTo_cons]
    by_cases h1 : k1 = key
    · rw [if_pos h1, aggGet_cons, aggGet_cons, ih]
      have hk1 : ¬ k1 = k := fun he => h (he.symm.trans h1)
      rw [if_neg hk1, if_neg hk1]
    · rw [if_neg h1, aggGet_cons, aggGet_cons, ih]

theorem aggGet_appendTo_eq (agg : List (String × List String)) (key v : String) :
    aggGet (appendTo agg key v) key = (aggGet agg key).map (fun vs => vs ++ [v]) := by
  induction agg with
  | nil => rfl
  | cons kv t ih =>
    obtain ⟨k1, vs⟩ := kv
    rw [appendTo_cons]
    by_cases h1 : k1 = key
    · rw [if_pos h1, aggGet_cons, aggGet_cons, if_pos h1, if_pos h1]
      rfl
    · rw [if_neg h1, aggGet_cons, aggGet_cons, if_neg h1, if_neg h1, ih]

theorem processKeys_obj (kvs : List (String × Json)) (keys : List String) :
    ∀ agg, processKeys (Json.obj kvs) keys agg = Except.ok (objFold kvs keys agg) := by
  induction keys with
  | nil => intro agg; rfl
  | cons key rest ih =>
    intro agg
    have hstep : processKeys (Json.obj kvs) (key :: rest) agg =
        processKeys (Json.obj kvs) rest
          (match dictGet kvs key with
           | some v => if v.truthy then appendTo agg key (coerceValue v) else agg
           | none => agg) := by
      cases hv : dictGet kvs key with
      | none => simp [processKeys, pyContains, hv]
      | some v =>
        by_cases ht : v.truthy
        · simp [processKeys, pyContains, pyIndex, hv, ht]
        · simp [processKeys, pyContains, pyIndex, hv, ht]
    rw [hstep, ih]
    congr 1

theorem objFold_aggGet_notmem (kvs : List (String × Json)) (keys : List String) :
    ∀ (agg : List (String × List String)) (k : String), k ∉ keys →
      aggGet (objFold kvs keys agg) k = aggGet agg k := by
  induction keys with
  | nil => intro agg k _; rfl
  | cons key rest ih =>
    intro agg k hk
    have hk1 : k ≠ key := fun he => hk (he ▸ List.mem_cons_self key rest)
    have hk2 : k ∉ rest := fun hm => hk (List.mem_cons_of_mem key hm)
    rw [objFold, ih _ k hk2]
    cases hv : dictGet kvs key with
    | none => simp [hv]
    | some v =>
      by_cases ht : v.truthy
      · simp [hv, ht, aggGet_appendTo_ne agg key _ k hk1]
      · simp [hv, ht]

theorem objFold_aggGet_mem (kvs : List (String × Json)) (keys : List String) :
    ∀ (agg : List (String × List String)) (k : String), keys.Nodup → k ∈ keys →
      aggGet (objFold kvs keys agg) k =
        (aggGet agg k).map (fun vs => vs ++ extraFor kvs k) := by
  induction keys with
  | nil => intro agg k _ hk; cases hk
  | cons key rest ih =>
    intro agg k hnd hk
    have hnotin : key ∉ rest := (List.nodup_cons.mp hnd).1
    have hnd2 : rest.Nodup := (List.nodup_cons.mp hnd).2
    rw [objFold]
    rcases List.mem_cons.mp hk with he | hm
    · subst he
      rw [objFold_aggGet_notmem kvs rest _ k hnotin]
      unfold extraFor
      cases hv : dictGet kvs k with
      | none =>
        cases haux : aggGet agg k <;> simp [hv, haux]
      | some v =>
        by_cases ht : v.truthy
        · simp [hv, ht, aggGet_appendTo_eq agg k (coerceValue v)]
        · cases haux : aggGet agg k <;> simp [hv, ht, haux]
    · have hkey : k ≠ key := fun he => hnotin (he ▸ hm)
      rw [ih _ k hnd2 hm]
      congr 1
      cases hv : dictGet kvs key with
      | none => simp [hv]
      | some v =>
        by_cases ht : v.truthy
        · simp [hv, ht, aggGet_appendTo_ne agg key _ k hkey]
        · simp [hv, ht]

theorem runChunks_calls_of_ok (extractor : String → Response) (chunks : List String) :
    ∀ (i : Nat) (agg r : List (String × List String)),
      (runChunks extractor chunks i agg).1 = Except.ok r →
      (runChunks extractor chunks i agg).2 = chunks := by
  induction chunks with
  | nil => intro i agg r _; rfl
  | cons c rest ih =>
    intro i agg r h
    cases hp : processChunk agg i (extractor c) with
    | ok agg2 =>
      rw [runChunks] at h ⊢
      simp only [hp] at h ⊢
      exact congrArg (c :: ·) (ih (i + 1) agg2 r h)
    | error e =>
      rw [runChunks] at h
      simp only [hp] at h
      exact Except.noConfusion h

/-- C4: `chunk_text "" max_chars` returns exactly one chunk, the empty
string (since `"".split("\n") == [""]`), and `extract_financial_data`
consequently sends exactly one extraction request for empty input — the
sequence of texts passed to the extractor is `[""]`, whatever the
extractor answers. -/
theorem empty_input_single_chunk (maxChars : Nat) (extractor : String → Response) :
    chunk_text "" maxChars = [""] ∧ (extract_financial_data extractor "").2 = [""] := by
  refine ⟨chunk_text_empty maxChars, ?_⟩
  show (runChunks extractor (chunk_text "" DEFAULT_MAX_CHARS) 0 emptyAggregated).2 = [""]
  rw [chunk_text_empty, runChunks]
  cases hp : processChunk emptyAggregated 0 (extractor "") with
  | ok agg2 => simp [hp, runChunks]
  | error e => simp [hp]

/-- C5: when chunk `i`'s response fails to parse as JSON, the aggregator
appends exactly the string `"Failed to parse JSON in chunk i"` to the
`Revenue` field's list, leaves every other field's list untouched for that
chunk, and continues with chunk `i + 1` (the remaining chunks are processed
from the updated accumulator, and the chunk is still counted as called). -/
theorem malformed_response_isolation (extractor : String → Response) (rest : List String)
    (c : String) (i : Nat) (agg : List (String × List String))
    (h : extractor c = Response.invalid) :
    (runChunks extractor (c :: rest) i agg).1 =
      (runChunks extractor rest (i + 1)
        (appendTo agg "Revenue" ("Failed to parse JSON in chunk " ++ toString i))).1 ∧
    (runChunks extractor (c :: rest) i agg).2 =
      c :: (runChunks extractor rest (i + 1)
        (appendTo agg "Revenue" ("Failed to parse JSON in chunk " ++ toString i))).2 ∧
    (∀ k, k ≠ "Revenue" →
      aggGet (appendTo agg "Revenue" ("Failed to parse JSON in chunk " ++ toString i)) k
        = aggGet agg k) ∧
    aggGet (appendTo agg "Revenue" ("Failed to parse JSON in chunk " ++ toString i)) "Revenue"
      = (aggGet agg "Revenue").map
          (fun vs => vs ++ ["Failed to parse JSON in chunk " ++ toString i]) := by
  have hp : processChunk agg i (extractor c)
      = Except.ok (appendTo agg "Revenue" ("Failed to parse JSON in chunk " ++ toString i)) := by
    rw [h]
    rfl
  refine ⟨?_, ?_, ?_, ?_⟩
  · rw [runChunks]; simp [hp]
  · rw [runChunks]; simp [hp]
  · intro k hk; exact aggGet_appendTo_ne agg "Revenue" _ k hk
  · exact aggGet_appendTo_eq agg "Revenue" _

/-- C5 at a concrete input: a single unparseable chunk at index 0. -/
theorem malformed_response_isolation_witness :
    (runChunks (fun _ => Response.invalid) ["x"] 0 emptyAggregated).1 =
      (runChunks (fun _ => Response.invalid) [] (0 + 1)
        (appendTo emptyAggregated "Revenue" ("Failed to parse JSON in chunk " ++ toString 0))).1 ∧
    (runChunks (fun _ => Response.invalid) ["x"] 0 emptyAggregated).2 =
      "x" :: (runChunks (fun _ => Response.invalid) [] (0 + 1)
        (appendTo emptyAggregated "Revenue" ("Failed to parse JSON in chunk " ++ toString 0))).2 ∧
    (∀ k, k ≠ "Revenue" →
      aggGet (appendTo emptyAggregated "Revenue" ("Failed to parse JSON in chunk " ++ toString 0)) k
        = aggGet emptyAggregated k) ∧
    aggGet (appendTo emptyAggregated "Revenue" ("Failed to parse JSON in chunk " ++ toString 0))
        "Revenue"
      = (aggGet emptyAggregated "Revenue").map
          (fun vs => vs ++ ["Failed to parse JSON in chunk " ++ toString 0]) :=
  malformed_response_isolation (fun _ => Response.invalid) [] "x" 0 emptyAggregated rfl

/-- C6: the final record maps every field to `"; ".join` of its accumulated
value list, and an empty list yields the empty string (`"; ".join([]) == ""`
— never a separator-only string). -/
theorem final_record_join (agg : List (String × List String)) :
    finalResult agg = agg.map (fun kv => (kv.1, joinSemicolon kv.2)) ∧
    joinSemicolon [] = "" := by
  refine ⟨?_, rfl⟩
  induction agg with
  | nil => rfl
  | cons kv t ih =>
    obtain ⟨k, vs⟩ := kv
    show (k, if vs.isEmpty then "" else joinSemicolon vs) :: finalResult t
        = (k, joinSemicolon vs) :: t.map (fun kv => (kv.1, joinSemicolon kv.2))
    rw [ih]
    cases vs with
    | nil => rfl
    | cons v vs2 => rfl

/-- C7: for a chunk whose response parses as a JSON object, each of the
five field lists gains exactly the entries `extraFor` describes: one value
iff the key is present with a truthy (non-empty / non-zero) value, namely
that value coerced by `coerceValue` — a dict is re-serialised with
`json.dumps`, a string kept as is, any other value passed through `str`. -/
theorem parse_success_accumulation (kvs : List (String × Json))
    (agg : List (String × List String)) (i : Nat) (k : String) (hk : k ∈ fieldNames) :
    ∃ agg2, processChunk agg i (Response.parsed (Json.obj kvs)) = Except.ok agg2 ∧
      aggGet agg2 k = (aggGet agg k).map (fun vs => vs ++ extraFor kvs k) :=
  ⟨objFold kvs fieldNames agg, processKeys_obj kvs fieldNames agg,
    objFold_aggGet_mem kvs fieldNames agg k (by decide) hk⟩

/-- C7 at a concrete input: an object response carrying a numeric
`Revenue` value at chunk 0. -/
theorem parse_success_accumulation_witness :
    "Revenue" ∈ fieldNames ∧
    ∃ agg2, processChunk emptyAggregated 0
        (Response.parsed (Json.obj [("Revenue", Json.num 42)])) = Except.ok agg2 ∧
      aggGet agg2 "Revenue" = (aggGet emptyAggregated "Revenue").map
        (fun vs => vs ++ extraFor [("Revenue", Json.num 42)] "Revenue") :=
  ⟨by decide,
    parse_success_accumulation [("Revenue", Json.num 42)] emptyAggregated 0 "Revenue" (by decide)⟩

/-- C8: whenever `extract_financial_data` returns a final record (no
uncaught exception), the sequence of texts passed to the extractor equals
the chunk sequence produced by `chunk_text text 3000` — exactly one call
per chunk, sequentially in chunk order, with no retry, caching or
batching. -/
theorem one_call_per_chunk (extractor : String → Response) (text : String)
    (r : List (String × String))
    (h : (extract_financial_data extractor text).1 = Except.ok r) :
    (extract_financial_data extractor text).2 = chunk_text text DEFAULT_MAX_CHARS := by
  show (runChunks extractor (chunk_text text DEFAULT_MAX_CHARS) 0 emptyAggregated).2 = _
  cases hq : (runChunks extractor (chunk_text text DEFAULT_MAX_CHARS) 0 emptyAggregated).1 with
  | ok agg => exact runChunks_calls_of_ok extractor _ 0 emptyAggregated agg hq
  | error e =>
    exfalso
    have hbad : (extract_financial_data extractor text).1 = Except.error e := by
      show (match (runChunks extractor (chunk_text text DEFAULT_MAX_CHARS) 0
          emptyAggregated).1 with
        | Except.ok agg => Except.ok (finalResult agg)
        | Except.error e => Except.error e) = Except.error e
      rw [hq]
    rw [hbad] at h
    cases h

/-- C8 at a concrete input: one chunk, one call. -/
theorem one_call_per_chunk_witness :
    (extract_financial_data (fun _ => Response.invalid) "hi").2 =
      chunk_text "hi" DEFAULT_MAX_CHARS :=
  one_call_per_chunk (fun _ => Response.invalid) "hi"
    [("Revenue", "Failed to parse JSON in chunk 0"), ("Earnings", ""), ("OperatingMargin", ""),
      ("RevenueGrowthRates", ""), ("Guidance", "")] (by rfl)

/-- C10: if some chunk's response parses as valid JSON whose top-level
value is a number, boolean or null, the membership test `key in data`
raises a `TypeError` that only-`JSONDecodeError` handling does not catch:
the run terminates with the error at that chunk, no diagnostic is recorded
and no later chunk is ever sent to the extractor. -/
theorem nonobject_json_uncaught (extractor : String → Response) (c : String)
    (rest : List String) (i : Nat) (agg : List (String × List String)) (n : Int) (b : Bool)
    (h : extractor c = Response.parsed (Json.num n) ∨
      extractor c = Response.parsed (Json.bool b) ∨
      extractor c = Response.parsed Json.null) :
    runChunks extractor (c :: rest) i agg = (Except.error PyError.typeError, [c]) := by
  have hp : processChunk agg i (extractor c) = Except.error PyError.typeError := by
    rcases h with h | h | h <;> rw [h] <;> rfl
  rw [runChunks, hp]

/-- C10 at a concrete input: a top-level JSON number at chunk 0 aborts the
pipeline before the second chunk is processed. -/
theorem nonobject_json_uncaught_witness :
    runChunks (fun _ => Response.parsed (Json.num 7)) ["x", "y"] 0 emptyAggregated
      = (Except.error PyError.typeError, ["x"]) :=
  nonobject_json_uncaught (fun _ => Response.parsed (Json.num 7)) "x" ["y"] 0 emptyAggregated
    7 true (Or.inl rfl)

/-- C9 (counterexample): the suffix checks of `main` run on the lowercased
argument, so `"REPORT.PDF"` — which does not literally end in `.pdf`,
does not end in `.html` and does not begin with `http` — is routed to PDF
document-text extraction, not to the usage error the claim's
"anything else" clause demands. -/
theorem input_classification_cex :
    classify_input ["main.py", "REPORT.PDF"] = MainRoute.pdfRoute "REPORT.PDF" ∧
    MainRoute.pdfRoute "REPORT.PDF" ≠ MainRoute.usageErrorUnknown := by decide

/-- C9 (amended): a missing argument exits with code 1 before any
processing; otherwise the argument is routed on its LOWERCASED suffix —
`.pdf` (case-insensitively) to document-text extraction, `.html`
(case-insensitively) or a case-sensitive `http` leading match to
markup-text extraction — and anything else to a usage error with exit
code 1. -/
theorem input_classification_amended (argv0 inputPath : String) (rest : List String) :
    classify_input [] = MainRoute.usageErrorMissing ∧
    classify_input [argv0] = MainRoute.usageErrorMissing ∧
    routeExitCode MainRoute.usageErrorMissing = some 1 ∧
    routeExitCode MainRoute.usageErrorUnknown = some 1 ∧
    (strEndsWith (strToLower inputPath) ".pdf" = true →
      classify_input (argv0 :: inputPath :: rest) = MainRoute.pdfRoute inputPath) ∧
    (strEndsWith (strToLower inputPath) ".pdf" = false →
      (strEndsWith (strToLower inputPath) ".html" || strStartsWith inputPath "http") = true →
      classify_input (argv0 :: inputPath :: rest) = MainRoute.htmlRoute inputPath) ∧
    (strEndsWith (strToLower inputPath) ".pdf" = false →
      (strEndsWith (strToLower inputPath) ".html" || strStartsWith inputPath "http") = false →
      classify_input (argv0 :: inputPath :: rest) = MainRoute.usageErrorUnknown) := by
  refine ⟨rfl, rfl, rfl, rfl, ?_, ?_, ?_⟩
  · intro h1; simp [classify_input, h1]
  · intro h1 h2; simp [classify_input, h1, h2]
  · intro h1 h2; simp [classify_input, h1, h2]

/-- C9 (amended) at a concrete input: `"x.pdf"` routes to PDF extraction. -/
theorem input_classification_amended_witness :
    classify_input ["main.py", "x.pdf"] = MainRoute.pdfRoute "x.pdf" :=
  (input_classification_amended "main.py" "x.pdf" []).2.2.2.2.1 (by decide)

end GPTFin
